import Mathlib

/-
Verification of the song-candidate resolution engine of the Spotify AI
Playlist Generator (src/app.py), as a shallow embedding in Lean 4.

Modelling conventions:
- A `Track` is a catalog search item; only the fields read by the code are
  kept, with `artistId`/`artistName` standing for `track['artists'][0]`.
- The paginated search stream is a `List (Except Unit (List Track))`:
  position `k` is the result of `sp.search(..., offset = k * 50)`;
  `Except.error ()` is a `SpotifyException` raised by that fetch.  Fetching
  past the end of the list models an exhausted catalog and returns an
  empty page (the real service keeps answering with empty pages).
- The popularity oracle `get_artist_monthly_listeners` is modelled as a
  parameter `oracle : String → Except Unit Nat`; `Except.error ()` is a
  transport error raised by `sp.artist`, which the Python code does not
  catch inside `get_songs`.
- `get_songs` returns a `ResolveResult`: the outcome (`Except.error ()`
  meaning an uncaught exception escaped the function), the ordered list of
  artist ids the popularity oracle was queried for, and the number of
  search calls issued.  The `[:200]` truncation of the query string is not
  observable in this model because the page stream is a parameter.
-/

namespace SpotAI

/-- A catalog search item, src/app.py lines 104-122: the fields of
`track` that `get_songs` reads.  `artistId` and `artistName` are
`track['artists'][0]['id']` and `track['artists'][0]['name']`. -/
structure Track where
  id : String
  name : String
  artistId : String
  artistName : String
  spotifyUrl : String
deriving DecidableEq, Repr

/-- The accepted-song tuple built at src/app.py lines 118-123:
`(track['id'], track['name'], track['artists'][0]['name'],
track['external_urls']['spotify'])`. -/
structure Song where
  id : String
  name : String
  artistName : String
  url : String
deriving DecidableEq, Repr

/-- The tuple stored in `unique_songs` for an accepted track. -/
def songOf (t : Track) : Song :=
  ⟨t.id, t.name, t.artistName, t.spotifyUrl⟩

/-- Python `str.lower()` (src/app.py line 105), written over the
character list so that it evaluates inside the kernel; it agrees with
`String.toLower` (both map `Char.toLower` over the characters). -/
def lowerStr (s : String) : String :=
  ⟨s.data.map Char.toLower⟩

/-- src/app.py line 86: the exclusion keyword list. -/
def exclude_keywords : List String :=
  ["remix", "edit", "version", "live", "rework", "acoustic", "cover",
   "tribute", "karaoke"]

/-- Python substring containment `needle in hay`. -/
def strHasSub (hay needle : String) : Bool :=
  hay.toList.tails.any (fun suf => needle.toList.isPrefixOf suf)

/-- src/app.py line 114: `any(keyword in song_name for keyword in
exclude_keywords)`, applied to the lowercased title. -/
def excludedTitle (song_name : String) : Bool :=
  exclude_keywords.any (fun kw => strHasSub song_name kw)

/-- The mutable state of the resolution loop, src/app.py lines 85-88:
`unique_songs` (an insertion-ordered dict from normalized title to song
tuple), `track_ids_seen` and `song_titles_seen`. -/
structure ResolveState where
  uniqueSongs : List (String × Song)
  trackIdsSeen : List String
  songTitlesSeen : List String
deriving DecidableEq, Repr

/-- The state at entry of `get_songs`: everything empty. -/
def initState : ResolveState := ⟨[], [], []⟩

/-- src/app.py lines 111-115: the candidate gate — normalized title not
seen, catalog id not seen, and no exclusion keyword occurs in the
lowercased title. -/
def passesGate (st : ResolveState) (t : Track) : Prop :=
  lowerStr t.name ∉ st.songTitlesSeen ∧ t.id ∉ st.trackIdsSeen ∧
    excludedTitle (lowerStr t.name) = false

instance (st : ResolveState) (t : Track) : Decidable (passesGate st t) := by
  unfold passesGate; exact inferInstance

/-- src/app.py lines 118-125: record an acceptance — insert into
`unique_songs` (a fresh key, hence an append) and add the id and title to
the seen sets. -/
def acceptTrack (st : ResolveState) (t : Track) : ResolveState :=
  { uniqueSongs := st.uniqueSongs ++ [(lowerStr t.name, songOf t)],
    trackIdsSeen := st.trackIdsSeen ++ [t.id],
    songTitlesSeen := st.songTitlesSeen ++ [lowerStr t.name] }

/-- src/app.py lines 104-128: the `for track in results['tracks']['items']`
body.  Returns `Except.error log` when a popularity lookup raised (the
exception propagates; `log` is the oracle-call log at that point), and
`Except.ok (st, log)` when the page was processed (either to its end, or
cut short by the `break` at line 128).  The oracle-call log accumulates
the artist ids passed to `get_artist_monthly_listeners`. -/
def scanTracks (song_limit max_listeners : Nat)
    (oracle : String → Except Unit Nat) :
    List Track → ResolveState → List String →
      Except (List String) (ResolveState × List String)
  | [], st, log => Except.ok (st, log)
  | t :: rest, st, log =>
    if passesGate st t then
      match oracle t.artistId with
      | Except.error _ => Except.error (log ++ [t.artistId])
      | Except.ok listeners =>
        let st2 := if listeners ≤ max_listeners then acceptTrack st t else st
        if song_limit ≤ st2.uniqueSongs.length then
          Except.ok (st2, log ++ [t.artistId])
        else
          scanTracks song_limit max_listeners oracle rest st2
            (log ++ [t.artistId])
    else
      scanTracks song_limit max_listeners oracle rest st log

/-- How the `while` loop of src/app.py lines 93-130 ends. -/
inductive LoopOutcome where
  /-- The loop ended normally (limit reached or an empty page). -/
  | done (st : ResolveState)
  /-- A search call raised; caught at lines 96-98, returns `[]`. -/
  | searchFail
  /-- A popularity lookup raised; the exception escapes `get_songs`. -/
  | crash
deriving DecidableEq, Repr

/-- src/app.py lines 93-130: the pagination loop.  `pages` is the stream
of remaining search results, `fetched` counts the search calls issued so
far.  A fetch past the end of the stream yields an empty page. -/
def searchLoop (song_limit max_listeners : Nat)
    (oracle : String → Except Unit Nat) :
    List (Except Unit (List Track)) → ResolveState → List String → Nat →
      LoopOutcome × List String × Nat
  | pages, st, log, fetched =>
    if st.uniqueSongs.length < song_limit then
      match pages with
      | [] => (LoopOutcome.done st, log, fetched + 1)
      | Except.error _ :: _ => (LoopOutcome.searchFail, log, fetched + 1)
      | Except.ok [] :: _ => (LoopOutcome.done st, log, fetched + 1)
      | Except.ok (t :: ts) :: rest =>
        match scanTracks song_limit max_listeners oracle (t :: ts) st log with
        | Except.error log2 => (LoopOutcome.crash, log2, fetched + 1)
        | Except.ok (st2, log2) =>
          searchLoop song_limit max_listeners oracle rest st2 log2 (fetched + 1)
    else
      (LoopOutcome.done st, log, fetched)

deriving instance DecidableEq for Except

/-- The observable behaviour of one `get_songs` call: the returned list
(`Except.error ()` when an uncaught exception escaped the function), the
ordered artist-id arguments of the popularity-oracle calls, and the
number of search calls issued. -/
structure ResolveResult where
  songs : Except Unit (List Song)
  oracleCalls : List String
  pagesFetched : Nat
deriving DecidableEq, Repr

/-- src/app.py lines 76-132: `get_songs(input_text, song_limit,
max_listeners)`, parameterized by the popularity oracle and the page
stream.  Line 79-80 is the sentinel guard; line 132 is the final
defensive `[:song_limit]` truncation of `list(unique_songs.values())`. -/
def get_songs (input_text : String) (song_limit max_listeners : Nat)
    (oracle : String → Except Unit Nat)
    (pages : List (Except Unit (List Track))) : ResolveResult :=
  if input_text = "" ∨ input_text = "error" then
    ⟨Except.ok [], [], 0⟩
  else
    match searchLoop song_limit max_listeners oracle pages initState [] 0 with
    | (LoopOutcome.done st, log, f) =>
      ⟨Except.ok ((st.uniqueSongs.map Prod.snd).take song_limit), log, f⟩
    | (LoopOutcome.searchFail, log, f) => ⟨Except.ok [], log, f⟩
    | (LoopOutcome.crash, log, f) => ⟨Except.error (), log, f⟩

/-- The prompt built at src/app.py line 63. -/
def analyzePrompt (input_text : String) : String :=
  "Analyze the input that the user gives to create a music recommendation that follows the prompt and return a short phrase or keywords suitable for searching: "
    ++ input_text

/-- src/app.py lines 58-67: `analyze_input`.  `llmAvailable = false`
models `create_openai_client` returning `None`; `invoke` returning
`Except.error ()` models `llm.invoke` raising.  Both failure paths yield
the sentinel string `"error"`. -/
def analyze_input (llmAvailable : Bool)
    (invoke : String → Except Unit String) (input_text : String) : String :=
  if llmAvailable then
    match invoke (analyzePrompt input_text) with
    | Except.error _ => "error"
    | Except.ok content => lowerStr content.trim
  else "error"

/-- The prompt built at src/app.py line 140. -/
def explainPrompt (input_text track_name artist : String) : String :=
  "In one sentence, explain why the song \x27" ++ track_name ++ "\x27 by "
    ++ artist ++ " fits the prompt \x27" ++ input_text
    ++ "\x27. Focus on musical style/genre."

/-- src/app.py lines 135-145: `explain_song_choice`, with the same
failure modelling as `analyze_input`; the success path truncates the
response at the `additional_kwargs` marker. -/
def explain_song_choice (llmAvailable : Bool)
    (invoke : String → Except Unit String)
    (input_text track_name artist : String) : String :=
  if llmAvailable then
    match invoke (explainPrompt input_text track_name artist) with
    | Except.error _ => "error"
    | Except.ok content =>
      ((content.trim.splitOn "additional_kwargs").headD "")
  else "error"

/-- An always-succeeding popularity oracle built from a pure listener
count per artist id. -/
def pureOracle (g : String → Nat) : String → Except Unit Nat :=
  fun a => Except.ok (g a)

/-- A page stream with no transport errors. -/
def purePages (pages : List (List Track)) : List (Except Unit (List Track)) :=
  pages.map Except.ok

/-- The items a page contributes to the stream (an error page has none). -/
def pageItems : Except Unit (List Track) → List Track
  | Except.ok l => l
  | Except.error _ => []

/-- All candidate tracks of the stream, in fetch-then-page order. -/
def streamTracks (pages : List (Except Unit (List Track))) : List Track :=
  (pages.map pageItems).flatten

/-! ### Step equations for the two loops -/

theorem scanTracks_nil {n c : Nat} {orF : String → Except Unit Nat}
    {st : ResolveState} {log : List String} :
    scanTracks n c orF [] st log = Except.ok (st, log) := rfl

theorem scanTracks_cons_skip {n c : Nat} {orF : String → Except Unit Nat}
    {t : Track} {rest : List Track} {st : ResolveState} {log : List String}
    (h : ¬ passesGate st t) :
    scanTracks n c orF (t :: rest) st log = scanTracks n c orF rest st log := by
  rw [scanTracks]; simp [h]

theorem scanTracks_cons_err {n c : Nat} {orF : String → Except Unit Nat}
    {t : Track} {rest : List Track} {st : ResolveState} {log : List String}
    {e : Unit} (hg : passesGate st t) (ho : orF t.artistId = Except.error e) :
    scanTracks n c orF (t :: rest) st log =
      Except.error (log ++ [t.artistId]) := by
  rw [scanTracks]; simp [hg, ho]

theorem scanTracks_cons_ok {n c : Nat} {orF : String → Except Unit Nat}
    {t : Track} {rest : List Track} {st : ResolveState} {log : List String}
    {p : Nat} (hg : passesGate st t) (ho : orF t.artistId = Except.ok p) :
    scanTracks n c orF (t :: rest) st log =
      (if n ≤ (if p ≤ c then acceptTrack st t else st).uniqueSongs.length then
        Except.ok ((if p ≤ c then acceptTrack st t else st), log ++ [t.artistId])
      else
        scanTracks n c orF rest (if p ≤ c then acceptTrack st t else st)
          (log ++ [t.artistId])) := by
  rw [scanTracks]; simp [hg, ho]

theorem searchLoop_stop {n c : Nat} {orF : String → Except Unit Nat}
    {pages : List (Except Unit (List Track))} {st : ResolveState}
    {log : List String} {f : Nat} (h : ¬ st.uniqueSongs.length < n) :
    searchLoop n c orF pages st log f = (LoopOutcome.done st, log, f) := by
  rw [searchLoop.eq_def]; simp [h]

theorem searchLoop_nil {n c : Nat} {orF : String → Except Unit Nat}
    {st : ResolveState} {log : List String} {f : Nat}
    (h : st.uniqueSongs.length < n) :
    searchLoop n c orF [] st log f = (LoopOutcome.done st, log, f + 1) := by
  rw [searchLoop.eq_def]; simp [h]

theorem searchLoop_errPage {n c : Nat} {orF : String → Except Unit Nat}
    {e : Unit} {rest : List (Except Unit (List Track))} {st : ResolveState}
    {log : List String} {f : Nat} (h : st.uniqueSongs.length < n) :
    searchLoop n c orF (Except.error e :: rest) st log f =
      (LoopOutcome.searchFail, log, f + 1) := by
  rw [searchLoop.eq_def]; simp [h]

theorem searchLoop_emptyPage {n c : Nat} {orF : String → Except Unit Nat}
    {rest : List (Except Unit (List Track))} {st : ResolveState}
    {log : List String} {f : Nat} (h : st.uniqueSongs.length < n) :
    searchLoop n c orF (Except.ok [] :: rest) st log f =
      (LoopOutcome.done st, log, f + 1) := by
  rw [searchLoop.eq_def]; simp [h]

theorem searchLoop_page {n c : Nat} {orF : String → Except Unit Nat}
    {t : Track} {ts : List Track} {rest : List (Except Unit (List Track))}
    {st : ResolveState} {log : List String} {f : Nat}
    (h : st.uniqueSongs.length < n) :
    searchLoop n c orF (Except.ok (t :: ts) :: rest) st log f =
      (match scanTracks n c orF (t :: ts) st log with
       | Except.error log2 => (LoopOutcome.crash, log2, f + 1)
       | Except.ok (st2, log2) => searchLoop n c orF rest st2 log2 (f + 1)) := by
  rw [searchLoop.eq_def]; simp [h]

/-! ### Length bounds -/

theorem acceptTrack_uniqueSongs {st : ResolveState} {t : Track} :
    (acceptTrack st t).uniqueSongs =
      st.uniqueSongs ++ [(lowerStr t.name, songOf t)] := rfl

theorem scanTracks_length {n c : Nat} {orF : String → Except Unit Nat}
    {items : List Track} {st : ResolveState} {log : List String}
    {st2 : ResolveState} {log2 : List String}
    (hlt : st.uniqueSongs.length < n)
    (he : scanTracks n c orF items st log = Except.ok (st2, log2)) :
    st2.uniqueSongs.length ≤ n := by
  induction items generalizing st log with
  | nil =>
    rw [scanTracks_nil] at he
    cases he
    exact Nat.le_of_lt hlt
  | cons t rest ih =>
    by_cases hg : passesGate st t
    · cases ho : orF t.artistId with
      | error e => rw [scanTracks_cons_err hg ho] at he; cases he
      | ok p =>
        rw [scanTracks_cons_ok hg ho] at he
        have hstep : (if p ≤ c then acceptTrack st t else st).uniqueSongs.length
            ≤ st.uniqueSongs.length + 1 := by
          by_cases hp : p ≤ c <;> simp [hp, acceptTrack_uniqueSongs]
        by_cases hb : n ≤ (if p ≤ c then acceptTrack st t else st).uniqueSongs.length
        · rw [if_pos hb] at he
          cases he
          omega
        · rw [if_neg hb] at he
          exact ih (Nat.lt_of_not_le hb) he
    · rw [scanTracks_cons_skip hg] at he
      exact ih hlt he

theorem searchLoop_length {n c : Nat} {orF : String → Except Unit Nat}
    {pages : List (Except Unit (List Track))} {st : ResolveState}
    {log : List String} {f : Nat} {st2 : ResolveState} {log2 : List String}
    {f2 : Nat} (hle : st.uniqueSongs.length ≤ n)
    (he : searchLoop n c orF pages st log f = (LoopOutcome.done st2, log2, f2)) :
    st2.uniqueSongs.length ≤ n := by
  induction pages generalizing st log f with
  | nil =>
    by_cases h : st.uniqueSongs.length < n
    · rw [searchLoop_nil h] at he; cases he; exact hle
    · rw [searchLoop_stop h] at he; cases he; exact hle
  | cons page rest ih =>
    by_cases h : st.uniqueSongs.length < n
    · match page with
      | Except.error e => rw [searchLoop_errPage h] at he; cases he
      | Except.ok [] => rw [searchLoop_emptyPage h] at he; cases he; exact hle
      | Except.ok (t :: ts) =>
        rw [searchLoop_page h] at he
        cases hs : scanTracks n c orF (t :: ts) st log with
        | error log3 => rw [hs] at he; simp at he
        | ok r =>
          obtain ⟨st3, log3⟩ := r
          rw [hs] at he
          simp at he
          exact ih (scanTracks_length h hs) he
    · rw [searchLoop_stop h] at he; cases he; exact hle

/-! ### The dedup invariant of the resolution state -/

/-- The invariant maintained by `get_songs` on its mutable state:
`song_titles_seen` is exactly the key set of `unique_songs`,
`track_ids_seen` is exactly the ids of the accepted songs, every key is
the lowercased accepted title, and both seen-lists are duplicate-free. -/
def StInv (st : ResolveState) : Prop :=
  st.songTitlesSeen = st.uniqueSongs.map Prod.fst ∧
  st.trackIdsSeen = st.uniqueSongs.map (fun p => p.2.id) ∧
  (∀ p ∈ st.uniqueSongs, p.1 = lowerStr p.2.name) ∧
  st.songTitlesSeen.Nodup ∧ st.trackIdsSeen.Nodup

theorem StInv_init : StInv initState := by
  refine ⟨rfl, rfl, ?_, ?_, ?_⟩ <;> simp [initState]

theorem StInv_accept {st : ResolveState} {t : Track} (h : StInv st)
    (hg : passesGate st t) : StInv (acceptTrack st t) := by
  obtain ⟨h1, h2, h3, h4, h5⟩ := h
  obtain ⟨hgt, hgi, hgk⟩ := hg
  refine ⟨?_, ?_, ?_, ?_, ?_⟩
  · simp [acceptTrack, h1]
  · simp [acceptTrack, h2, songOf]
  · intro p hp
    rw [acceptTrack_uniqueSongs, List.mem_append] at hp
    rcases hp with hp | hp
    · exact h3 p hp
    · rw [List.mem_singleton] at hp
      subst hp
      simp [songOf]
  · simp only [acceptTrack, List.nodup_append, List.nodup_cons]
    refine ⟨h4, by simp, ?_⟩
    intro x hx hmem
    rw [List.mem_singleton] at hmem
    subst hmem
    exact hgt hx
  · simp only [acceptTrack, List.nodup_append, List.nodup_cons]
    refine ⟨h5, by simp, ?_⟩
    intro x hx hmem
    rw [List.mem_singleton] at hmem
    subst hmem
    exact hgi hx

theorem scanTracks_inv {n c : Nat} {orF : String → Except Unit Nat}
    {items : List Track} {st : ResolveState} {log : List String}
    {st2 : ResolveState} {log2 : List String} (hinv : StInv st)
    (he : scanTracks n c orF items st log = Except.ok (st2, log2)) :
    StInv st2 := by
  induction items generalizing st log with
  | nil => rw [scanTracks_nil] at he; cases he; exact hinv
  | cons t rest ih =>
    by_cases hg : passesGate st t
    · cases ho : orF t.artistId with
      | error e => rw [scanTracks_cons_err hg ho] at he; cases he
      | ok p =>
        rw [scanTracks_cons_ok hg ho] at he
        have hinv2 : StInv (if p ≤ c then acceptTrack st t else st) := by
          by_cases hp : p ≤ c
          · rw [if_pos hp]; exact StInv_accept hinv hg
          · rw [if_neg hp]; exact hinv
        by_cases hb : n ≤ (if p ≤ c then acceptTrack st t else st).uniqueSongs.length
        · rw [if_pos hb] at he; cases he; exact hinv2
        · rw [if_neg hb] at he; exact ih hinv2 he
    · rw [scanTracks_cons_skip hg] at he
      exact ih hinv he

theorem searchLoop_inv {n c : Nat} {orF : String → Except Unit Nat}
    {pages : List (Except Unit (List Track))} {st : ResolveState}
    {log : List String} {f : Nat} {st2 : ResolveState} {log2 : List String}
    {f2 : Nat} (hinv : StInv st)
    (he : searchLoop n c orF pages st log f = (LoopOutcome.done st2, log2, f2)) :
    StInv st2 := by
  induction pages generalizing st log f with
  | nil =>
    by_cases h : st.uniqueSongs.length < n
    · rw [searchLoop_nil h] at he; cases he; exact hinv
    · rw [searchLoop_stop h] at he; cases he; exact hinv
  | cons page rest ih =>
    by_cases h : st.uniqueSongs.length < n
    · match page with
      | Except.error e => rw [searchLoop_errPage h] at he; cases he
      | Except.ok [] => rw [searchLoop_emptyPage h] at he; cases he; exact hinv
      | Except.ok (t :: ts) =>
        rw [searchLoop_page h] at he
        cases hs : scanTracks n c orF (t :: ts) st log with
        | error log3 => rw [hs] at he; simp at he
        | ok r =>
          obtain ⟨st3, log3⟩ := r
          rw [hs] at he
          simp at he
          exact ih (scanTracks_inv hinv hs) he
    · rw [searchLoop_stop h] at he; cases he; exact hinv

/-! ### Trace lemmas: which candidates a run evaluates and accepts -/

theorem scanTracks_trace {n c : Nat} {orF : String → Except Unit Nat}
    {items : List Track} {st : ResolveState} {log : List String} :
    ∃ ev sel : List Track,
      ev.Sublist items ∧ sel.Sublist ev ∧
      (∀ t ∈ ev, excludedTitle (lowerStr t.name) = false) ∧
      (∀ t ∈ sel, ∃ p, orF t.artistId = Except.ok p ∧ p ≤ c) ∧
      (scanTracks n c orF items st log
          = Except.error (log ++ ev.map Track.artistId) ∨
       ∃ st2, scanTracks n c orF items st log
            = Except.ok (st2, log ++ ev.map Track.artistId) ∧
          st2.uniqueSongs = st.uniqueSongs
              ++ sel.map (fun t => (lowerStr t.name, songOf t)) ∧
          st2.trackIdsSeen = st.trackIdsSeen ++ sel.map Track.id ∧
          st2.songTitlesSeen
              = st.songTitlesSeen ++ sel.map (fun t => lowerStr t.name)) := by
  induction items generalizing st log with
  | nil =>
    refine ⟨[], [], List.Sublist.refl _, List.Sublist.refl _, by simp, by simp,
      Or.inr ⟨st, ?_, by simp, by simp, by simp⟩⟩
    simp [scanTracks_nil]
  | cons t rest ih =>
    by_cases hg : passesGate st t
    · cases ho : orF t.artistId with
      | error e =>
        refine ⟨[t], [], List.Sublist.cons₂ t (List.nil_sublist rest),
          List.nil_sublist _, ?_, by simp, Or.inl ?_⟩
        · intro x hx
          rw [List.mem_singleton] at hx
          subst hx
          exact hg.2.2
        · rw [scanTracks_cons_err hg ho]
          simp
      | ok p =>
        rw [scanTracks_cons_ok hg ho]
        by_cases hb : n ≤ (if p ≤ c then acceptTrack st t else st).uniqueSongs.length
        · rw [if_pos hb]
          by_cases hp : p ≤ c
          · refine ⟨[t], [t], List.Sublist.cons₂ t (List.nil_sublist rest),
              List.Sublist.refl _, ?_, ?_, Or.inr ⟨acceptTrack st t, ?_, ?_, ?_, ?_⟩⟩
            · intro x hx
              rw [List.mem_singleton] at hx
              subst hx
              exact hg.2.2
            · intro x hx
              rw [List.mem_singleton] at hx
              subst hx
              exact ⟨p, ho, hp⟩
            · rw [if_pos hp]; simp
            · simp [acceptTrack]
            · simp [acceptTrack]
            · simp [acceptTrack]
          · refine ⟨[t], [], List.Sublist.cons₂ t (List.nil_sublist rest),
              List.nil_sublist _, ?_, by simp, Or.inr ⟨st, ?_, by simp, by simp, by simp⟩⟩
            · intro x hx
              rw [List.mem_singleton] at hx
              subst hx
              exact hg.2.2
            · rw [if_neg hp]; simp
        · rw [if_neg hb]
          obtain ⟨ev1, sel1, hev1, hsel1, hkw1, hpop1, hres1⟩ :=
            @ih (if p ≤ c then acceptTrack st t else st) (log ++ [t.artistId])
          by_cases hp : p ≤ c
          · rw [if_pos hp] at hres1 ⊢
            refine ⟨t :: ev1, t :: sel1, List.Sublist.cons₂ t hev1,
              List.Sublist.cons₂ t hsel1, ?_, ?_, ?_⟩
            · intro x hx
              rw [List.mem_cons] at hx
              rcases hx with hx | hx
              · subst hx; exact hg.2.2
              · exact hkw1 x hx
            · intro x hx
              rw [List.mem_cons] at hx
              rcases hx with hx | hx
              · subst hx; exact ⟨p, ho, hp⟩
              · exact hpop1 x hx
            · rcases hres1 with hres1 | ⟨st2, he2, hu2, hi2, ht2⟩
              · left
                rw [hres1]
                simp
              · right
                refine ⟨st2, ?_, ?_, ?_, ?_⟩
                · rw [he2]; simp
                · rw [hu2]; simp [acceptTrack]
                · rw [hi2]; simp [acceptTrack]
                · rw [ht2]; simp [acceptTrack]
          · rw [if_neg hp] at hres1 ⊢
            refine ⟨t :: ev1, sel1, List.Sublist.cons₂ t hev1,
              List.Sublist.cons t hsel1, ?_, hpop1, ?_⟩
            · intro x hx
              rw [List.mem_cons] at hx
              rcases hx with hx | hx
              · subst hx; exact hg.2.2
              · exact hkw1 x hx
            · rcases hres1 with hres1 | ⟨st2, he2, hu2, hi2, ht2⟩
              · left
                rw [hres1]
                simp
              · right
                refine ⟨st2, ?_, hu2, hi2, ht2⟩
                rw [he2]
                simp
    · rw [scanTracks_cons_skip hg]
      obtain ⟨ev1, sel1, hev1, hsel1, hkw1, hpop1, hres1⟩ := @ih st log
      exact ⟨ev1, sel1, List.Sublist.cons t hev1, hsel1, hkw1, hpop1, hres1⟩

theorem streamTracks_cons_ok {items : List Track}
    {rest : List (Except Unit (List Track))} :
    streamTracks (Except.ok items :: rest) = items ++ streamTracks rest := by
  simp [streamTracks, pageItems]

theorem streamTracks_cons_err {e : Unit}
    {rest : List (Except Unit (List Track))} :
    streamTracks (Except.error e :: rest) = streamTracks rest := by
  simp [streamTracks, pageItems]

theorem searchLoop_trace {n c : Nat} {orF : String → Except Unit Nat}
    {pages : List (Except Unit (List Track))} {st : ResolveState}
    {log : List String} {f : Nat} :
    ∃ ev sel : List Track,
      ev.Sublist (streamTracks pages) ∧ sel.Sublist ev ∧
      (∀ t ∈ ev, excludedTitle (lowerStr t.name) = false) ∧
      (∀ t ∈ sel, ∃ p, orF t.artistId = Except.ok p ∧ p ≤ c) ∧
      (searchLoop n c orF pages st log f).2.1 = log ++ ev.map Track.artistId ∧
      (∀ st2, (searchLoop n c orF pages st log f).1 = LoopOutcome.done st2 →
        st2.uniqueSongs = st.uniqueSongs
          ++ sel.map (fun t => (lowerStr t.name, songOf t))) := by
  induction pages generalizing st log f with
  | nil =>
    by_cases h : st.uniqueSongs.length < n
    · refine ⟨[], [], List.Sublist.refl _, List.Sublist.refl _, by simp, by simp,
        ?_, ?_⟩
      · rw [searchLoop_nil h]; simp
      · intro st2 hh
        rw [searchLoop_nil h] at hh
        simp at hh
        subst hh
        simp
    · refine ⟨[], [], List.Sublist.refl _, List.Sublist.refl _, by simp, by simp,
        ?_, ?_⟩
      · rw [searchLoop_stop h]; simp
      · intro st2 hh
        rw [searchLoop_stop h] at hh
        simp at hh
        subst hh
        simp
  | cons page rest ih =>
    by_cases h : st.uniqueSongs.length < n
    · match page with
      | Except.error e =>
        refine ⟨[], [], List.nil_sublist _, List.Sublist.refl _, by simp, by simp,
          ?_, ?_⟩
        · rw [searchLoop_errPage h]; simp
        · intro st2 hh
          rw [searchLoop_errPage h] at hh
          simp at hh
      | Except.ok [] =>
        refine ⟨[], [], List.nil_sublist _, List.Sublist.refl _, by simp, by simp,
          ?_, ?_⟩
        · rw [searchLoop_emptyPage h]; simp
        · intro st2 hh
          rw [searchLoop_emptyPage h] at hh
          simp at hh
          subst hh
          simp
      | Except.ok (t :: ts) =>
        rw [searchLoop_page h]
        obtain ⟨ev1, sel1, hev1, hsel1, hkw1, hpop1, hres1⟩ :=
          @scanTracks_trace n c orF (t :: ts) st log
        rcases hres1 with hres1 | ⟨st3, he3, hu3, hi3, ht3⟩
        · refine ⟨ev1, [], ?_, List.nil_sublist _, hkw1, by simp, ?_, ?_⟩
          · rw [streamTracks_cons_ok]
            exact hev1.trans (List.sublist_append_left _ _)
          · rw [hres1]
          · intro st2 hh
            rw [hres1] at hh
            simp at hh
        · rw [he3]
          obtain ⟨ev2, sel2, hev2, hsel2, hkw2, hpop2, hlog2, hdone2⟩ :=
            @ih st3 (log ++ ev1.map Track.artistId) (f + 1)
          refine ⟨ev1 ++ ev2, sel1 ++ sel2, ?_, hsel1.append hsel2, ?_, ?_, ?_, ?_⟩
          · rw [streamTracks_cons_ok]
            exact hev1.append hev2
          · intro x hx
            rw [List.mem_append] at hx
            rcases hx with hx | hx
            · exact hkw1 x hx
            · exact hkw2 x hx
          · intro x hx
            rw [List.mem_append] at hx
            rcases hx with hx | hx
            · exact hpop1 x hx
            · exact hpop2 x hx
          · rw [hlog2]
            simp
          · intro st2 hh
            rw [hdone2 st2 hh, hu3]
            simp
    · refine ⟨[], [], List.nil_sublist _, List.Sublist.refl _, by simp, by simp,
        ?_, ?_⟩
      · rw [searchLoop_stop h]; simp
      · intro st2 hh
        rw [searchLoop_stop h] at hh
        simp at hh
        subst hh
        simp

/-! ### Unfolding lemmas for get_songs -/

theorem get_songs_sentinel {input_text : String} {n c : Nat}
    {orF : String → Except Unit Nat} {pages : List (Except Unit (List Track))}
    (h : input_text = "" ∨ input_text = "error") :
    get_songs input_text n c orF pages = ⟨Except.ok [], [], 0⟩ := by
  rw [get_songs, if_pos h]

theorem get_songs_run {input_text : String} {n c : Nat}
    {orF : String → Except Unit Nat} {pages : List (Except Unit (List Track))}
    (h : ¬ (input_text = "" ∨ input_text = "error")) :
    get_songs input_text n c orF pages =
      (match searchLoop n c orF pages initState [] 0 with
       | (LoopOutcome.done st, log, f) =>
         ⟨Except.ok ((st.uniqueSongs.map Prod.snd).take n), log, f⟩
       | (LoopOutcome.searchFail, log, f) => ⟨Except.ok [], log, f⟩
       | (LoopOutcome.crash, log, f) => ⟨Except.error (), log, f⟩) := by
  rw [get_songs, if_neg h]

theorem get_songs_ok_cases {input_text : String} {n c : Nat}
    {orF : String → Except Unit Nat} {pages : List (Except Unit (List Track))}
    {l : List Song} (h : (get_songs input_text n c orF pages).songs = Except.ok l) :
    l = [] ∨
    ∃ st log f, searchLoop n c orF pages initState [] 0
        = (LoopOutcome.done st, log, f) ∧
      l = (st.uniqueSongs.map Prod.snd).take n := by
  by_cases hg : input_text = "" ∨ input_text = "error"
  · rw [get_songs_sentinel hg] at h
    simp at h
    exact Or.inl h
  · rw [get_songs_run hg] at h
    rcases hre : searchLoop n c orF pages initState [] 0 with ⟨o, log, f⟩
    rw [hre] at h
    match o with
    | LoopOutcome.done st =>
      simp at h
      exact Or.inr ⟨st, log, f, rfl, h.symm⟩
    | LoopOutcome.searchFail =>
      simp at h
      exact Or.inl h
    | LoopOutcome.crash => simp at h

theorem get_songs_oracleCalls_eq {input_text : String} {n c : Nat}
    {orF : String → Except Unit Nat} {pages : List (Except Unit (List Track))}
    (h : ¬ (input_text = "" ∨ input_text = "error")) :
    (get_songs input_text n c orF pages).oracleCalls
      = (searchLoop n c orF pages initState [] 0).2.1 := by
  rw [get_songs_run h]
  rcases searchLoop n c orF pages initState [] 0 with ⟨o, log, f⟩
  cases o <;> rfl

/-! ### The claims -/

/-- C2: in any list returned by `get_songs`, no two songs share a
normalized (lowercased) title and no two songs share a catalog id; in
particular at most one song per normalized title survives even when the
stream holds several items whose titles differ only by case. -/
theorem get_songs_dedup {input_text : String} {n c : Nat}
    {orF : String → Except Unit Nat} {pages : List (Except Unit (List Track))}
    {l : List Song} (h : (get_songs input_text n c orF pages).songs = Except.ok l) :
    (l.map (fun s => lowerStr s.name)).Nodup ∧ (l.map Song.id).Nodup := by
  rcases get_songs_ok_cases h with rfl | ⟨st, log, f, hloop, rfl⟩
  · simp
  · obtain ⟨h1, h2, h3, h4, h5⟩ := searchLoop_inv StInv_init hloop
    constructor
    · have hmap : st.uniqueSongs.map (fun p => lowerStr p.2.name)
          = st.uniqueSongs.map Prod.fst := by
        apply List.map_congr_left
        intro p hp
        exact (h3 p hp).symm
      have hkey : ((st.uniqueSongs.map Prod.snd).take n).map (fun s => lowerStr s.name)
          = st.songTitlesSeen.take n := by
        rw [← List.map_take, List.map_map]
        rw [h1, ← hmap]
        rw [List.map_take]
        rfl
      rw [hkey]
      exact h4.sublist (List.take_sublist n st.songTitlesSeen)
    · have hid : ((st.uniqueSongs.map Prod.snd).take n).map Song.id
          = st.trackIdsSeen.take n := by
        rw [← List.map_take, List.map_map]
        rw [h2, List.map_take]
        rfl
      rw [hid]
      exact h5.sublist (List.take_sublist n st.trackIdsSeen)

/-- C3: every song in a list returned by `get_songs` comes from a stream
candidate whose first artist the popularity oracle mapped to a value not
exceeding `max_listeners`; the oracle is a function of the artist id, so
this is exactly the value it returned when the candidate was evaluated. -/
theorem get_songs_popularity_ceiling {input_text : String} {n c : Nat}
    {orF : String → Except Unit Nat} {pages : List (Except Unit (List Track))}
    {l : List Song} (h : (get_songs input_text n c orF pages).songs = Except.ok l) :
    ∀ s ∈ l, ∃ t : Track, t ∈ streamTracks pages ∧ s = songOf t ∧
      ∃ p, orF t.artistId = Except.ok p ∧ p ≤ c := by
  rcases get_songs_ok_cases h with rfl | ⟨st, log, f, hloop, rfl⟩
  · simp
  · obtain ⟨ev, sel, hev, hsel, hkw, hpop, hlog, hdone⟩ :=
      @searchLoop_trace n c orF pages initState [] 0
    have hu := hdone st (by rw [hloop])
    simp [initState] at hu
    intro s hs
    have hs2 : s ∈ st.uniqueSongs.map Prod.snd := List.mem_of_mem_take hs
    rw [hu, List.map_map] at hs2
    obtain ⟨t, htsel, hts⟩ := List.mem_map.mp hs2
    refine ⟨t, (hsel.trans hev).subset htsel, ?_, hpop t htsel⟩
    exact hts.symm

/-- C9: the songs returned by `get_songs` are the images of a sublist of
the flattened page stream: acceptance order equals evaluation order
within a page, and all accepted songs of earlier pages precede those of
later pages. -/
theorem get_songs_order_preserved {input_text : String} {n c : Nat}
    {orF : String → Except Unit Nat} {pages : List (Except Unit (List Track))}
    {l : List Song} (h : (get_songs input_text n c orF pages).songs = Except.ok l) :
    ∃ sel : List Track, sel.Sublist (streamTracks pages) ∧ l = sel.map songOf := by
  rcases get_songs_ok_cases h with rfl | ⟨st, log, f, hloop, rfl⟩
  · exact ⟨[], List.nil_sublist _, rfl⟩
  · obtain ⟨ev, sel, hev, hsel, hkw, hpop, hlog, hdone⟩ :=
      @searchLoop_trace n c orF pages initState [] 0
    have hu := hdone st (by rw [hloop])
    simp [initState] at hu
    refine ⟨sel.take n, (List.take_sublist n sel).trans (hsel.trans hev), ?_⟩
    rw [hu, List.map_map, ← List.map_take]
    exact List.map_congr_left (fun t _ => rfl)

/-- C4: a track whose lowercased title contains an exclusion keyword
never appears in the output of `get_songs`, and the popularity oracle is
only consulted for tracks that passed the keyword filter — no popularity
lookup is involved in deciding an exclusion. -/
theorem get_songs_excluded_never_output {input_text : String} {n c : Nat}
    {orF : String → Except Unit Nat} {pages : List (Except Unit (List Track))} :
    (∀ l, (get_songs input_text n c orF pages).songs = Except.ok l →
      ∀ t : Track, excludedTitle (lowerStr t.name) = true → songOf t ∉ l) ∧
    (∀ a ∈ (get_songs input_text n c orF pages).oracleCalls,
      ∃ t : Track, t ∈ streamTracks pages ∧ a = t.artistId ∧
        excludedTitle (lowerStr t.name) = false) := by
  constructor
  · intro l h t hex hmem
    rcases get_songs_ok_cases h with rfl | ⟨st, log, f, hloop, rfl⟩
    · simp at hmem
    · obtain ⟨ev, sel, hev, hsel, hkw, hpop, hlog, hdone⟩ :=
        @searchLoop_trace n c orF pages initState [] 0
      have hu := hdone st (by rw [hloop])
      simp [initState] at hu
      have hmem2 : songOf t ∈ st.uniqueSongs.map Prod.snd :=
        List.mem_of_mem_take hmem
      rw [hu, List.map_map] at hmem2
      obtain ⟨t2, ht2sel, ht2⟩ := List.mem_map.mp hmem2
      have hname : t2.name = t.name := congrArg Song.name ht2
      have hkwt := hkw t2 (hsel.subset ht2sel)
      rw [hname, hex] at hkwt
      cases hkwt
  · intro a ha
    by_cases hg : input_text = "" ∨ input_text = "error"
    · rw [get_songs_sentinel hg] at ha
      simp at ha
    · rw [get_songs_oracleCalls_eq hg] at ha
      obtain ⟨ev, sel, hev, hsel, hkw, hpop, hlog, hdone⟩ :=
        @searchLoop_trace n c orF pages initState [] 0
      rw [hlog] at ha
      simp at ha
      obtain ⟨t, htev, hta⟩ := ha
      exact ⟨t, hev.subset htev, hta.symm, hkw t htev⟩

/-! ### Concrete fixtures for witnesses -/

/-- Fixture: an accepted track. -/
def trAlpha : Track := ⟨"t1", "Alpha", "a1", "Alice", "u1"⟩

/-- Fixture: a track whose artist exceeds the ceiling used below. -/
def trBeta : Track := ⟨"t2", "Beta", "a2", "Bob", "u2"⟩

/-- Fixture: a case-variant duplicate of `trAlpha`. -/
def trAlphaCaps : Track := ⟨"t3", "ALPHA", "a3", "Cara", "u3"⟩

/-- Fixture: a track carrying an exclusion keyword. -/
def trRemix : Track := ⟨"t4", "Alpha Remix", "a4", "Dan", "u4"⟩

/-- Fixture popularity table: artist `a2` has 100 listeners, others 5. -/
def gPop : String → Nat := fun a => if a = "a2" then 100 else 5

/-- Fixture page stream: one page with all four tracks. -/
def fixPages : List (Except Unit (List Track)) :=
  purePages [[trAlpha, trBeta, trAlphaCaps, trRemix]]

theorem get_songs_dedup_w :
    ((get_songs "chill" 2 10 (pureOracle gPop) fixPages).songs
        = Except.ok [songOf trAlpha]) ∧
    (([songOf trAlpha].map (fun s => lowerStr s.name)).Nodup ∧
      ([songOf trAlpha].map Song.id).Nodup) :=
  ⟨by decide,
    @get_songs_dedup "chill" 2 10 (pureOracle gPop) fixPages
      [songOf trAlpha] (by decide)⟩

theorem get_songs_popularity_ceiling_w :
    ((get_songs "chill" 2 10 (pureOracle gPop) fixPages).songs
        = Except.ok [songOf trAlpha]) ∧
    (∃ t : Track, t ∈ streamTracks fixPages ∧ songOf trAlpha = songOf t ∧
      ∃ p, pureOracle gPop t.artistId = Except.ok p ∧ p ≤ 10) :=
  ⟨by decide,
    @get_songs_popularity_ceiling "chill" 2 10 (pureOracle gPop) fixPages
      [songOf trAlpha] (by decide) (songOf trAlpha) (by decide)⟩

theorem get_songs_order_preserved_w :
    ((get_songs "chill" 2 10 (pureOracle gPop) fixPages).songs
        = Except.ok [songOf trAlpha]) ∧
    (∃ sel : List Track, sel.Sublist (streamTracks fixPages) ∧
      [songOf trAlpha] = sel.map songOf) :=
  ⟨by decide,
    @get_songs_order_preserved "chill" 2 10 (pureOracle gPop) fixPages
      [songOf trAlpha] (by decide)⟩

theorem get_songs_excluded_never_output_w :
    ((get_songs "chill" 2 10 (pureOracle gPop) fixPages).songs
        = Except.ok [songOf trAlpha]) ∧
    (excludedTitle (lowerStr trRemix.name) = true) ∧
    (songOf trRemix ∉ [songOf trAlpha]) ∧
    ("a1" ∈ (get_songs "chill" 2 10 (pureOracle gPop) fixPages).oracleCalls) ∧
    (∃ t : Track, t ∈ streamTracks fixPages ∧ "a1" = t.artistId ∧
      excludedTitle (lowerStr t.name) = false) :=
  ⟨by decide, by decide,
    (@get_songs_excluded_never_output "chill" 2 10 (pureOracle gPop)
      fixPages).1 [songOf trAlpha] (by decide) trRemix (by decide),
    by decide,
    (@get_songs_excluded_never_output "chill" 2 10 (pureOracle gPop)
      fixPages).2 "a1" (by decide)⟩

/-- C8: a phrase that is empty or equal to the sentinel `"error"` makes
`get_songs` return immediately with an empty list, zero search calls and
zero popularity-oracle calls; and `analyze_input` returns that same
sentinel on either language-model failure path (client construction
failed, or the completion call raised). -/
theorem get_songs_sentinel_noop :
    (∀ (input_text : String) (n c : Nat) (orF : String → Except Unit Nat)
        (pages : List (Except Unit (List Track))),
      (input_text = "" ∨ input_text = "error") →
      get_songs input_text n c orF pages = ⟨Except.ok [], [], 0⟩) ∧
    (∀ (invoke : String → Except Unit String) (input_text : String),
      analyze_input false invoke input_text = "error") ∧
    (∀ (invoke : String → Except Unit String) (input_text : String),
      invoke (analyzePrompt input_text) = Except.error () →
      analyze_input true invoke input_text = "error") := by
  refine ⟨?_, ?_, ?_⟩
  · intro input_text n c orF pages h
    exact get_songs_sentinel h
  · intro invoke input_text
    rfl
  · intro invoke input_text h
    simp [analyze_input, h]

theorem get_songs_sentinel_noop_w :
    get_songs "" 3 7 (pureOracle gPop) fixPages = ⟨Except.ok [], [], 0⟩ ∧
    get_songs "error" 3 7 (pureOracle gPop) fixPages = ⟨Except.ok [], [], 0⟩ ∧
    analyze_input false (fun _ => Except.ok "jazz mood") "lift me up" = "error" ∧
    analyze_input true (fun _ => Except.error ()) "lift me up" = "error" :=
  ⟨get_songs_sentinel_noop.1 "" 3 7 _ _ (Or.inl rfl),
   get_songs_sentinel_noop.1 "error" 3 7 _ _ (Or.inr rfl),
   get_songs_sentinel_noop.2.1 _ "lift me up",
   get_songs_sentinel_noop.2.2 _ "lift me up" rfl⟩

/-! ### Fail-closed behaviour on search transport errors -/

theorem get_songs_pagesFetched_eq {input_text : String} {n c : Nat}
    {orF : String → Except Unit Nat} {pages : List (Except Unit (List Track))}
    (h : ¬ (input_text = "" ∨ input_text = "error")) :
    (get_songs input_text n c orF pages).pagesFetched
      = (searchLoop n c orF pages initState [] 0).2.2 := by
  rw [get_songs_run h]
  rcases searchLoop n c orF pages initState [] 0 with ⟨o, log, f⟩
  cases o <;> rfl

theorem searchLoop_consume {n c : Nat} {orF : String → Except Unit Nat}
    {more : List (Except Unit (List Track))}
    {front : List (Except Unit (List Track))} {st : ResolveState}
    {log : List String} {f : Nat}
    (hcount : (searchLoop n c orF front st log f).2.2 = f + front.length + 1) :
    searchLoop n c orF (front ++ Except.error () :: more) st log f
      = (LoopOutcome.searchFail, (searchLoop n c orF front st log f).2.1,
         f + front.length + 1) := by
  induction front generalizing st log f with
  | nil =>
    by_cases h : st.uniqueSongs.length < n
    · rw [searchLoop_nil h]
      rw [List.nil_append, searchLoop_errPage h]
      simp
    · exfalso
      rw [searchLoop_stop h] at hcount
      simp at hcount
  | cons p front2 ih =>
    by_cases h : st.uniqueSongs.length < n
    · match p with
      | Except.error e =>
        exfalso
        rw [searchLoop_errPage h] at hcount
        simp at hcount
      | Except.ok [] =>
        exfalso
        rw [searchLoop_emptyPage h] at hcount
        simp at hcount
      | Except.ok (t :: ts) =>
        cases hs : scanTracks n c orF (t :: ts) st log with
        | error log2 =>
          exfalso
          rw [searchLoop_page h, hs] at hcount
          simp at hcount
        | ok r =>
          obtain ⟨st2, log2⟩ := r
          have hstep : ∀ X, searchLoop n c orF (Except.ok (t :: ts) :: X) st log f
              = searchLoop n c orF X st2 log2 (f + 1) := by
            intro X
            rw [searchLoop_page h, hs]
          simp only [List.cons_append, List.length_cons, hstep] at hcount ⊢
          have hc2 : (searchLoop n c orF front2 st2 log2 (f + 1)).2.2
              = (f + 1) + front2.length + 1 := by omega
          have harith : (f + 1) + front2.length + 1
              = f + (front2.length + 1) + 1 := by omega
          rw [ih hc2, harith]
    · exfalso
      rw [searchLoop_stop h] at hcount
      simp at hcount
      omega

theorem get_songs_error_page_empty {input_text : String} {n c : Nat}
    {orF : String → Except Unit Nat}
    {front more : List (Except Unit (List Track))}
    (h : (get_songs input_text n c orF front).pagesFetched = front.length + 1) :
    (get_songs input_text n c orF (front ++ Except.error () :: more)).songs
      = Except.ok [] := by
  by_cases hg : input_text = "" ∨ input_text = "error"
  · rw [get_songs_sentinel hg]
  · have hf : (searchLoop n c orF front initState [] 0).2.2
        = 0 + front.length + 1 := by
      rw [get_songs_pagesFetched_eq hg] at h
      omega
    rw [get_songs_run hg, searchLoop_consume hf]

/-- C5: whenever `get_songs` actually issues the fetch that raises (the
run consumed all of `front` and asked for one more page, which is what
`pagesFetched = front.length + 1` states), the returned list is empty —
songs already accepted from earlier pages are discarded, never returned
partially. -/
theorem get_songs_fail_closed {input_text : String} {n c : Nat}
    {orF : String → Except Unit Nat}
    {front more : List (Except Unit (List Track))}
    (h : (get_songs input_text n c orF front).pagesFetched = front.length + 1) :
    (get_songs input_text n c orF (front ++ Except.error () :: more)).songs
      = Except.ok [] :=
  get_songs_error_page_empty h

theorem get_songs_fail_closed_w :
    ((get_songs "chill" 2 10 (pureOracle gPop)
        [Except.ok [trAlpha]]).pagesFetched
      = (([Except.ok [trAlpha]] : List (Except Unit (List Track))).length + 1)) ∧
    ((get_songs "chill" 2 10 (pureOracle gPop)
        ([Except.ok [trAlpha]] ++ Except.error () :: [Except.ok [trBeta]])).songs
      = Except.ok []) :=
  ⟨by decide,
   @get_songs_fail_closed "chill" 2 10 (pureOracle gPop)
     [Except.ok [trAlpha]] [Except.ok [trBeta]] (by decide)⟩

/-! ### Failure handling across the pipeline -/

/-- C6 (amended): language-model failures in `explain_song_choice` (and
in `analyze_input`, see the C8 theorem) degrade to the `"error"`
sentinel, and a search transport error makes `get_songs` return an empty
list; but a transport error raised during a popularity lookup inside
`get_songs` is NOT handled — the exception (modelled by
`Except.error ()` in the `songs` field) escapes `get_songs` and aborts
the flow. -/
theorem failure_paths_amended :
    (∀ (invoke : String → Except Unit String) (i tn a : String),
      explain_song_choice false invoke i tn a = "error") ∧
    (∀ (invoke : String → Except Unit String) (i tn a : String),
      invoke (explainPrompt i tn a) = Except.error () →
      explain_song_choice true invoke i tn a = "error") ∧
    (∀ (input_text : String) (n c : Nat) (orF : String → Except Unit Nat)
        (front more : List (Except Unit (List Track))),
      (get_songs input_text n c orF front).pagesFetched = front.length + 1 →
      (get_songs input_text n c orF (front ++ Except.error () :: more)).songs
        = Except.ok []) ∧
    (∀ (input_text : String) (n c : Nat) (orF : String → Except Unit Nat)
        (t : Track) (ts : List Track)
        (more : List (Except Unit (List Track))),
      input_text ≠ "" → input_text ≠ "error" → 1 ≤ n →
      excludedTitle (lowerStr t.name) = false →
      orF t.artistId = Except.error () →
      (get_songs input_text n c orF (Except.ok (t :: ts) :: more)).songs
        = Except.error ()) := by
  refine ⟨?_, ?_, ?_, ?_⟩
  · intro invoke i tn a
    rfl
  · intro invoke i tn a h
    simp [explain_song_choice, h]
  · intro input_text n c orF front more h
    exact get_songs_error_page_empty h
  · intro input_text n c orF t ts more h1 h2 hn hk ho
    rw [get_songs_run (not_or.mpr ⟨h1, h2⟩)]
    have h0 : initState.uniqueSongs.length < n := by
      show 0 < n
      omega
    rw [searchLoop_page h0]
    have hgate : passesGate initState t :=
      ⟨by simp [initState], by simp [initState], hk⟩
    rw [scanTracks_cons_err hgate ho]

/-- C6 counterexample: a popularity lookup that raises makes `get_songs`
end in the uncaught-exception outcome (`songs = Except.error ()`) — not
a sentinel, not an empty list, not a displayed error — refuting the
claim that every external-call failure of the pipeline is handled. -/
theorem get_songs_popularity_crash_cex :
    (get_songs "chill" 1 10 (fun _ => Except.error ())
        [Except.ok [trAlpha]]).songs = Except.error () := by
  decide

theorem failure_paths_amended_w :
    explain_song_choice false (fun _ => Except.ok "fits well") "a" "b" "c"
      = "error" ∧
    explain_song_choice true (fun _ => Except.error ()) "a" "b" "c"
      = "error" ∧
    (get_songs "chill" 2 10 (pureOracle gPop)
        ([Except.ok [trAlpha]] ++ Except.error () :: [])).songs
      = Except.ok [] ∧
    (get_songs "mood" 1 10 (fun _ => Except.error ())
        (Except.ok (trAlpha :: []) :: [])).songs = Except.error () :=
  ⟨failure_paths_amended.1 _ "a" "b" "c",
   failure_paths_amended.2.1 _ "a" "b" "c" rfl,
   failure_paths_amended.2.2.1 "chill" 2 10 _ [Except.ok [trAlpha]] []
     (by decide),
   failure_paths_amended.2.2.2 "mood" 1 10 _ trAlpha [] []
     (by decide) (by decide) (by decide) (by decide) rfl⟩

/-! ### Early exit: nothing after the accepting item is evaluated -/

theorem scanTracks_append_of_break {n c : Nat} {orF : String → Except Unit Nat}
    {rest0 : List Track} {items : List Track} {st : ResolveState}
    {log : List String} {st2 : ResolveState} {log2 : List String}
    (hlt : st.uniqueSongs.length < n)
    (he : scanTracks n c orF items st log = Except.ok (st2, log2))
    (hfull : n ≤ st2.uniqueSongs.length) :
    scanTracks n c orF (items ++ rest0) st log = Except.ok (st2, log2) := by
  induction items generalizing st log with
  | nil =>
    rw [scanTracks_nil] at he
    cases he
    omega
  | cons t r ih =>
    by_cases hg : passesGate st t
    · cases ho : orF t.artistId with
      | error e =>
        rw [scanTracks_cons_err hg ho] at he
        cases he
      | ok p =>
        rw [scanTracks_cons_ok hg ho] at he
        rw [List.cons_append, scanTracks_cons_ok hg ho]
        by_cases hbrk : n ≤ (if p ≤ c then acceptTrack st t else st).uniqueSongs.length
        · rw [if_pos hbrk] at he ⊢
          exact he
        · rw [if_neg hbrk] at he ⊢
          exact ih (Nat.lt_of_not_le hbrk) he
    · rw [scanTracks_cons_skip hg] at he
      rw [List.cons_append, scanTracks_cons_skip hg]
      exact ih hlt he

theorem searchLoop_early_stop {n c : Nat} {orF : String → Except Unit Nat}
    {items rest0 : List Track} {more : List (Except Unit (List Track))}
    {front : List (Except Unit (List Track))} {st : ResolveState}
    {log : List String} {f : Nat} {st2 : ResolveState} {log2 : List String}
    {f2 : Nat} (hle : st.uniqueSongs.length ≤ n)
    (he : searchLoop n c orF (front ++ [Except.ok items]) st log f
      = (LoopOutcome.done st2, log2, f2))
    (hn : st2.uniqueSongs.length = n) :
    searchLoop n c orF (front ++ Except.ok (items ++ rest0) :: more) st log f
      = (LoopOutcome.done st2, log2, f2) := by
  induction front generalizing st log f with
  | nil =>
    rw [List.nil_append] at he ⊢
    by_cases h : st.uniqueSongs.length < n
    · match items, he with
      | [], he =>
        rw [searchLoop_emptyPage h] at he
        cases he
        omega
      | t :: ts, he =>
        cases hs : scanTracks n c orF (t :: ts) st log with
        | error log3 =>
          exfalso
          rw [searchLoop_page h, hs] at he
          simp at he
        | ok r =>
          obtain ⟨st3, log3⟩ := r
          have hstep : ∀ X, searchLoop n c orF (Except.ok (t :: ts) :: X) st log f
              = searchLoop n c orF X st3 log3 (f + 1) := by
            intro X
            rw [searchLoop_page h, hs]
          rw [hstep] at he
          by_cases h3 : st3.uniqueSongs.length < n
          · exfalso
            rw [searchLoop_nil h3] at he
            cases he
            omega
          · rw [searchLoop_stop h3] at he
            cases he
            have hsc2 : scanTracks n c orF ((t :: ts) ++ rest0) st log
                = Except.ok (st2, log2) :=
              scanTracks_append_of_break h hs (Nat.le_of_not_lt h3)
            rw [List.cons_append] at hsc2
            have hstep2 : searchLoop n c orF
                (Except.ok (t :: (ts ++ rest0)) :: more) st log f
                = searchLoop n c orF more st2 log2 (f + 1) := by
              rw [searchLoop_page h, hsc2]
            rw [List.cons_append, hstep2, searchLoop_stop h3]
    · rw [searchLoop_stop h] at he ⊢
      exact he
  | cons p front2 ih =>
    by_cases h : st.uniqueSongs.length < n
    · match p, he with
      | Except.error e, he =>
        exfalso
        rw [List.cons_append, searchLoop_errPage h] at he
        simp at he
      | Except.ok [], he =>
        exfalso
        rw [List.cons_append, searchLoop_emptyPage h] at he
        cases he
        omega
      | Except.ok (t :: ts), he =>
        cases hs : scanTracks n c orF (t :: ts) st log with
        | error log3 =>
          exfalso
          rw [List.cons_append, searchLoop_page h, hs] at he
          simp at he
        | ok r =>
          obtain ⟨st3, log3⟩ := r
          have hstep : ∀ X, searchLoop n c orF (Except.ok (t :: ts) :: X) st log f
              = searchLoop n c orF X st3 log3 (f + 1) := by
            intro X
            rw [searchLoop_page h, hs]
          rw [List.cons_append, hstep] at he
          rw [List.cons_append, hstep]
          exact ih (scanTracks_length h hs) he
    · rw [searchLoop_stop h] at he ⊢
      exact he

/-- C7: as soon as the accepted-song count reaches `song_limit` at some
item, the rest of that page (`rest0`) and all later pages (`more`) are
dead: the whole observable result of `get_songs` — returned list,
popularity-oracle call sequence, and number of search calls — is the
same as if the stream simply ended at the accepting item. -/
theorem get_songs_early_exit {input_text : String} {n c : Nat}
    {orF : String → Except Unit Nat}
    {front : List (Except Unit (List Track))} {items rest0 : List Track}
    {more : List (Except Unit (List Track))} {l : List Song}
    (h : (get_songs input_text n c orF (front ++ [Except.ok items])).songs
      = Except.ok l)
    (hlen : l.length = n) :
    get_songs input_text n c orF (front ++ Except.ok (items ++ rest0) :: more)
      = get_songs input_text n c orF (front ++ [Except.ok items]) := by
  by_cases hg : input_text = "" ∨ input_text = "error"
  · rw [get_songs_sentinel hg, get_songs_sentinel hg]
  · rcases get_songs_ok_cases h with rfl | ⟨st, log, f, hloop, rfl⟩
    · have hn0 : n = 0 := by simpa using hlen.symm
      subst hn0
      rw [get_songs_run hg, get_songs_run hg]
      have h1 : ¬ initState.uniqueSongs.length < 0 := by omega
      rw [searchLoop_stop h1, searchLoop_stop h1]
    · have hle0 : initState.uniqueSongs.length ≤ n := by
        show 0 ≤ n
        omega
      have hn : st.uniqueSongs.length = n := by
        have hle : st.uniqueSongs.length ≤ n :=
          searchLoop_length (by simp [initState]) hloop
        rw [List.length_take, List.length_map] at hlen
        omega
      rw [get_songs_run hg, get_songs_run hg, hloop,
        searchLoop_early_stop hle0 hloop hn]

theorem get_songs_early_exit_w :
    ((get_songs "chill" 1 10 (pureOracle gPop)
        ([] ++ [Except.ok [trAlpha]])).songs = Except.ok [songOf trAlpha]) ∧
    (([songOf trAlpha] : List Song).length = 1) ∧
    (get_songs "chill" 1 10 (pureOracle gPop)
        ([] ++ Except.ok ([trAlpha] ++ [trBeta]) :: [Except.ok [trAlphaCaps]])
      = get_songs "chill" 1 10 (pureOracle gPop) ([] ++ [Except.ok [trAlpha]])) :=
  ⟨by decide, by decide,
    @get_songs_early_exit "chill" 1 10 (pureOracle gPop) [] [trAlpha]
      [trBeta] [Except.ok [trAlphaCaps]] [songOf trAlpha]
      (by decide) (by decide)⟩

/-! ### A popularity rejection leaves no trace in the seen sets -/

/-- Fixture: a case-variant duplicate title of `trBeta` by an artist
within the ceiling. -/
def trBeta2 : Track := ⟨"t9", "BETA", "a9", "Eve", "u9"⟩

/-- C10: a candidate rejected solely because its first artist exceeds
the ceiling is not recorded in the seen-title or seen-id sets: a later
item with the same normalized title (or the same catalog id) is
evaluated again — a fresh popularity-oracle call is issued for it — and
it is accepted when its own first artist is within the ceiling. -/
theorem get_songs_popularity_reject_not_recorded
    {input_text : String} {n c : Nat} {g : String → Nat} {t t2 : Track}
    (h1 : input_text ≠ "") (h2 : input_text ≠ "error") (hn : 1 ≤ n)
    (hk : excludedTitle (lowerStr t.name) = false)
    (hk2 : excludedTitle (lowerStr t2.name) = false)
    (hp : c < g t.artistId) (hp2 : g t2.artistId ≤ c)
    (_hdup : lowerStr t2.name = lowerStr t.name ∨ t2.id = t.id) :
    (get_songs input_text n c (pureOracle g) [Except.ok [t, t2]]).songs
        = Except.ok [songOf t2] ∧
    (get_songs input_text n c (pureOracle g) [Except.ok [t, t2]]).oracleCalls
        = [t.artistId, t2.artistId] := by
  have hg2 : ¬ (input_text = "" ∨ input_text = "error") := not_or.mpr ⟨h1, h2⟩
  have h0 : initState.uniqueSongs.length < n := by
    show 0 < n
    omega
  have hgate1 : passesGate initState t :=
    ⟨by simp [initState], by simp [initState], hk⟩
  have hgate2 : passesGate initState t2 :=
    ⟨by simp [initState], by simp [initState], hk2⟩
  have hnotle : ¬ (g t.artistId ≤ c) := Nat.not_le_of_lt hp
  have hbreak1 : ¬ (n ≤ initState.uniqueSongs.length) := by
    show ¬ (n ≤ 0)
    omega
  have hscan : scanTracks n c (pureOracle g) [t, t2] initState []
      = Except.ok (acceptTrack initState t2, [t.artistId, t2.artistId]) := by
    rw [scanTracks_cons_ok hgate1 rfl, if_neg hnotle, if_neg hbreak1,
      List.nil_append, scanTracks_cons_ok hgate2 rfl, if_pos hp2]
    by_cases hb : n ≤ (acceptTrack initState t2).uniqueSongs.length
    · rw [if_pos hb]
      rfl
    · rw [if_neg hb, scanTracks_nil]
      rfl
  have hlist : (acceptTrack initState t2).uniqueSongs.map Prod.snd
      = [songOf t2] := by
    simp [acceptTrack, initState]
  have htake : (((acceptTrack initState t2).uniqueSongs.map Prod.snd).take n)
      = [songOf t2] := by
    rw [hlist]
    exact List.take_of_length_le (by simpa using hn)
  have hloop : ∃ fv, searchLoop n c (pureOracle g) [Except.ok [t, t2]]
      initState [] 0
      = (LoopOutcome.done (acceptTrack initState t2),
         [t.artistId, t2.artistId], fv) := by
    have hstep : ∀ X, searchLoop n c (pureOracle g) (Except.ok [t, t2] :: X)
        initState [] 0
        = searchLoop n c (pureOracle g) X (acceptTrack initState t2)
            [t.artistId, t2.artistId] 1 := by
      intro X
      rw [searchLoop_page h0, hscan]
    rw [hstep]
    by_cases hacc : (acceptTrack initState t2).uniqueSongs.length < n
    · exact ⟨2, by rw [searchLoop_nil hacc]⟩
    · exact ⟨1, by rw [searchLoop_stop hacc]⟩
  obtain ⟨fv, hloop⟩ := hloop
  rw [get_songs_run hg2, hloop]
  refine ⟨?_, rfl⟩
  show Except.ok (((acceptTrack initState t2).uniqueSongs.map Prod.snd).take n)
      = Except.ok [songOf t2]
  rw [htake]

theorem get_songs_popularity_reject_not_recorded_w :
    (get_songs "chill" 1 10 (pureOracle gPop)
        [Except.ok [trBeta, trBeta2]]).songs = Except.ok [songOf trBeta2] ∧
    (get_songs "chill" 1 10 (pureOracle gPop)
        [Except.ok [trBeta, trBeta2]]).oracleCalls
      = [trBeta.artistId, trBeta2.artistId] :=
  @get_songs_popularity_reject_not_recorded "chill" 1 10 gPop trBeta trBeta2
    (by decide) (by decide) (by decide) (by decide) (by decide) (by decide)
    (by decide) (Or.inl (by decide))

/-! ### The cardinality bound: limited run versus the unlimited run -/

/-- The page scan with no song limit: the same gate, ceiling test and
state updates as `scanTracks` under an error-free oracle, but never
breaking out.  This is the spec-side notion used by C1: a stream item is
a qualifying candidate exactly when this greedy pass accepts it. -/
def scanAll (c : Nat) (g : String → Nat) :
    List Track → ResolveState → ResolveState
  | [], st => st
  | t :: rest, st =>
    if passesGate st t then
      scanAll c g rest (if g t.artistId ≤ c then acceptTrack st t else st)
    else
      scanAll c g rest st

/-- The pagination loop with no song limit: consume pages until the
first empty page (or the end of the stream). -/
def qualifyLoop (c : Nat) (g : String → Nat) :
    List (List Track) → ResolveState → ResolveState
  | [], st => st
  | [] :: _, st => st
  | (t :: ts) :: rest, st => qualifyLoop c g rest (scanAll c g (t :: ts) st)

/-- The number of qualifying candidates in an error-free stream: stream
items that are non-duplicate (by normalized title and id), carry no
exclusion keyword, and whose first artist is within the ceiling, counted
up to the first empty page. -/
def qualifyingCount (c : Nat) (g : String → Nat)
    (pages : List (List Track)) : Nat :=
  ((qualifyLoop c g pages initState).uniqueSongs).length

theorem scanAll_nil {c : Nat} {g : String → Nat} {st : ResolveState} :
    scanAll c g [] st = st := rfl

theorem scanAll_cons_skip {c : Nat} {g : String → Nat} {t : Track}
    {rest : List Track} {st : ResolveState} (h : ¬ passesGate st t) :
    scanAll c g (t :: rest) st = scanAll c g rest st := by
  rw [scanAll]; simp [h]

theorem scanAll_cons_eval {c : Nat} {g : String → Nat} {t : Track}
    {rest : List Track} {st : ResolveState} (h : passesGate st t) :
    scanAll c g (t :: rest) st
      = scanAll c g rest (if g t.artistId ≤ c then acceptTrack st t else st) := by
  rw [scanAll]; simp [h]

theorem qualifyLoop_nil {c : Nat} {g : String → Nat} {st : ResolveState} :
    qualifyLoop c g [] st = st := rfl

theorem qualifyLoop_cons_nil {c : Nat} {g : String → Nat}
    {rest : List (List Track)} {st : ResolveState} :
    qualifyLoop c g ([] :: rest) st = st := rfl

theorem qualifyLoop_cons_cons {c : Nat} {g : String → Nat} {t : Track}
    {ts : List Track} {rest : List (List Track)} {st : ResolveState} :
    qualifyLoop c g ((t :: ts) :: rest) st
      = qualifyLoop c g rest (scanAll c g (t :: ts) st) := rfl

theorem scanAll_uniqueSongs_extend {c : Nat} {g : String → Nat}
    {items : List Track} {st : ResolveState} :
    ∃ tl, (scanAll c g items st).uniqueSongs = st.uniqueSongs ++ tl := by
  induction items generalizing st with
  | nil => exact ⟨[], by simp [scanAll_nil]⟩
  | cons t rest ih =>
    by_cases hg : passesGate st t
    · rw [scanAll_cons_eval hg]
      by_cases hp : g t.artistId ≤ c
      · rw [if_pos hp]
        obtain ⟨tl, htl⟩ := @ih (acceptTrack st t)
        refine ⟨(lowerStr t.name, songOf t) :: tl, ?_⟩
        rw [htl, acceptTrack_uniqueSongs]
        simp
      · rw [if_neg hp]
        exact ih
    · rw [scanAll_cons_skip hg]
      exact ih

theorem qualifyLoop_uniqueSongs_extend {c : Nat} {g : String → Nat}
    {pages : List (List Track)} {st : ResolveState} :
    ∃ tl, (qualifyLoop c g pages st).uniqueSongs = st.uniqueSongs ++ tl := by
  induction pages generalizing st with
  | nil => exact ⟨[], by simp [qualifyLoop]⟩
  | cons pg rest ih =>
    cases pg with
    | nil => exact ⟨[], by simp [qualifyLoop]⟩
    | cons t ts =>
      rw [qualifyLoop_cons_cons]
      obtain ⟨tl1, htl1⟩ := @scanAll_uniqueSongs_extend c g (t :: ts) st
      obtain ⟨tl2, htl2⟩ := @ih (scanAll c g (t :: ts) st)
      exact ⟨tl1 ++ tl2, by rw [htl2, htl1, List.append_assoc]⟩

theorem scanTracks_pure_take {n c : Nat} {g : String → Nat}
    {items : List Track} {st : ResolveState} {log : List String}
    (hlt : st.uniqueSongs.length < n) :
    ∃ st2 log2, scanTracks n c (pureOracle g) items st log
        = Except.ok (st2, log2) ∧
      st2.uniqueSongs.length ≤ n ∧
      ((st2.uniqueSongs.length < n ∧ st2 = scanAll c g items st) ∨
       (st2.uniqueSongs.length = n ∧
        st2.uniqueSongs = (scanAll c g items st).uniqueSongs.take n)) := by
  induction items generalizing st log with
  | nil =>
    exact ⟨st, log, scanTracks_nil, Nat.le_of_lt hlt,
      Or.inl ⟨hlt, by rw [scanAll_nil]⟩⟩
  | cons t r ih =>
    by_cases hg : passesGate st t
    · rw [scanTracks_cons_ok hg rfl, scanAll_cons_eval hg]
      have hstep : (if g t.artistId ≤ c then acceptTrack st t else st).uniqueSongs.length
          ≤ st.uniqueSongs.length + 1 := by
        by_cases hp : g t.artistId ≤ c <;> simp [hp, acceptTrack_uniqueSongs]
      by_cases hb : n ≤ (if g t.artistId ≤ c then acceptTrack st t else st).uniqueSongs.length
      · rw [if_pos hb]
        obtain ⟨tl, htl⟩ := @scanAll_uniqueSongs_extend c g r
          (if g t.artistId ≤ c then acceptTrack st t else st)
        refine ⟨_, _, rfl, by omega, Or.inr ⟨by omega, ?_⟩⟩
        rw [htl, List.take_append_of_le_length (by omega),
          List.take_of_length_le (by omega)]
      · rw [if_neg hb]
        exact ih (Nat.lt_of_not_le hb)
    · rw [scanTracks_cons_skip hg, scanAll_cons_skip hg]
      exact ih hlt

theorem searchLoop_pure_take {n c : Nat} {g : String → Nat}
    {pages : List (List Track)} {st : ResolveState} {log : List String}
    {f : Nat} (hle : st.uniqueSongs.length ≤ n) :
    ∃ st2 log2 f2, searchLoop n c (pureOracle g) (purePages pages) st log f
        = (LoopOutcome.done st2, log2, f2) ∧
      st2.uniqueSongs = (qualifyLoop c g pages st).uniqueSongs.take n := by
  induction pages generalizing st log f with
  | nil =>
    have hpn : purePages ([] : List (List Track)) = [] := rfl
    by_cases h : st.uniqueSongs.length < n
    · exact ⟨st, log, f + 1, by rw [hpn, searchLoop_nil h],
        by rw [qualifyLoop_nil, List.take_of_length_le hle]⟩
    · exact ⟨st, log, f, by rw [hpn, searchLoop_stop h],
        by rw [qualifyLoop_nil, List.take_of_length_le hle]⟩
  | cons pg rest ih =>
    have hpp : purePages (pg :: rest) = Except.ok pg :: purePages rest := rfl
    by_cases h : st.uniqueSongs.length < n
    · cases pg with
      | nil =>
        refine ⟨st, log, f + 1, ?_, ?_⟩
        · rw [hpp, searchLoop_emptyPage h]
        · rw [qualifyLoop_cons_nil, List.take_of_length_le hle]
      | cons t ts =>
        obtain ⟨st3, log3, hscan, hle3, hdisj⟩ :=
          @scanTracks_pure_take n c g (t :: ts) st log h
        have hstep : ∀ X, searchLoop n c (pureOracle g)
            (Except.ok (t :: ts) :: X) st log f
            = searchLoop n c (pureOracle g) X st3 log3 (f + 1) := by
          intro X
          rw [searchLoop_page h, hscan]
        rw [hpp, qualifyLoop_cons_cons, hstep]
        rcases hdisj with ⟨hlt3, hall⟩ | ⟨hn3, htake3⟩
        · obtain ⟨st2, log2, f2, hloop, htake⟩ := @ih st3 log3 (f + 1) hle3
          refine ⟨st2, log2, f2, hloop, ?_⟩
          rw [htake, hall]
        · have hstop : ¬ st3.uniqueSongs.length < n := by omega
          refine ⟨st3, log3, f + 1, by rw [searchLoop_stop hstop], ?_⟩
          obtain ⟨tl, htl⟩ := @qualifyLoop_uniqueSongs_extend c g rest
            (scanAll c g (t :: ts) st)
          have hlenq : n ≤ (scanAll c g (t :: ts) st).uniqueSongs.length := by
            have hq := congrArg List.length htake3
            rw [List.length_take] at hq
            omega
          rw [htl, List.take_append_of_le_length hlenq, ← htake3]
    · refine ⟨st, log, f, by rw [searchLoop_stop h], ?_⟩
      obtain ⟨tl, htl⟩ := @qualifyLoop_uniqueSongs_extend c g (pg :: rest) st
      rw [htl, List.take_append_of_le_length (by omega),
        List.take_of_length_le (by omega)]

/-- C1: the list returned by `get_songs` never exceeds `song_limit`
(whatever the phrase, oracle, or stream); and for a valid phrase on an
error-free stream its length reaches `song_limit` exactly when the
stream carries at least `song_limit` qualifying candidates —
non-duplicate by normalized title and id, free of exclusion keywords,
within the popularity ceiling — before the first empty page
(`qualifyingCount`). -/
theorem get_songs_cardinality {n c : Nat} :
    (∀ (input_text : String) (orF : String → Except Unit Nat)
        (pages : List (Except Unit (List Track))) (l : List Song),
      (get_songs input_text n c orF pages).songs = Except.ok l →
      l.length ≤ n) ∧
    (∀ (input_text : String) (g : String → Nat) (pages : List (List Track)),
      input_text ≠ "" → input_text ≠ "error" →
      ∃ l, (get_songs input_text n c (pureOracle g) (purePages pages)).songs
          = Except.ok l ∧
        (l.length = n ↔ n ≤ qualifyingCount c g pages)) := by
  constructor
  · intro input_text orF pages l h
    rcases get_songs_ok_cases h with rfl | ⟨st, log, f, hloop, rfl⟩
    · simp
    · rw [List.length_take]
      omega
  · intro input_text g pages h1 h2
    obtain ⟨st2, log2, f2, hloop, htake⟩ :=
      @searchLoop_pure_take n c g pages initState [] 0 (by simp [initState])
    rw [get_songs_run (not_or.mpr ⟨h1, h2⟩), hloop]
    refine ⟨_, rfl, ?_⟩
    rw [List.length_take, List.length_map, htake, List.length_take,
      qualifyingCount]
    omega

theorem get_songs_cardinality_w :
    (get_songs "chill" 2 10 (pureOracle gPop)
        (purePages [[trAlpha, trBeta, trAlphaCaps, trRemix]])).songs
      = Except.ok [songOf trAlpha] ∧
    ([songOf trAlpha] : List Song).length ≤ 2 ∧
    ∃ l, (get_songs "chill" 2 10 (pureOracle gPop)
        (purePages [[trAlpha, trBeta, trAlphaCaps, trRemix]])).songs
        = Except.ok l ∧
      (l.length = 2 ↔ 2 ≤ qualifyingCount 10 gPop
        [[trAlpha, trBeta, trAlphaCaps, trRemix]]) :=
  ⟨by decide,
   (@get_songs_cardinality 2 10).1 "chill" (pureOracle gPop)
     (purePages [[trAlpha, trBeta, trAlphaCaps, trRemix]])
     [songOf trAlpha] (by decide),
   (@get_songs_cardinality 2 10).2 "chill" gPop
     [[trAlpha, trBeta, trAlphaCaps, trRemix]] (by decide) (by decide)⟩

end SpotAI
